import Mathlib

/-!
Shallow embedding of the job-platform core of the service-platform
repository: job entities and repository updates, the worker-pool
failure and backoff path, the retry scheduler, the SQS listener bridge,
the job manager, the Redis-backed queue, and the session repository.
Each definition mirrors one Go function; times are modelled as natural
numbers, Go `int`/`int64` as `Int`, Go maps as association lists.
-/

namespace ServicePlatform

/-! ### Job constants (database/constant/job)

Go declares `type Status string` and `type Priority int`, so the model
uses `String` and `Int` directly; the zero values `""` and `0` are then
represented faithfully. -/

abbrev Status := String

def Pending : Status := "pending"

def Processing : Status := "processing"

def Completed : Status := "completed"

def Failed : Status := "failed"

def Retrying : Status := "retrying"

abbrev Priority := Int

def PriorityLow : Priority := 0

def PriorityNormal : Priority := 1

def PriorityHigh : Priority := 2

def PriorityCritical : Priority := 3

/-! ### Payload values

Payload values are JSON-representable; the model keeps plain string
values and one level of string-keyed objects, which is all the metadata
written by the SQS bridge needs. -/

inductive PVal where
  | str (s : String)
  | obj (m : List (String × String))
deriving DecidableEq

abbrev Payload := List (String × PVal)

/-- Assignment `m[k] = v` on a Go map, modelled on an association list:
any existing binding of `k` is dropped and the new binding appended. -/
def mapSet (m : Payload) (k : String) (v : PVal) : Payload :=
  m.filter (fun kv => kv.1 ≠ k) ++ [(k, v)]

/-! ### entity.Job -/

structure Job where
  id : Nat
  type : String
  priority : Priority
  payload : Option Payload
  attempts : Int
  maxAttempts : Int
  createdAt : Nat
  updatedAt : Option Nat
  deletedAt : Option Nat
  scheduledAt : Option Nat
  startedAt : Option Nat
  completedAt : Option Nat
  status : Status
  error : String
deriving DecidableEq

/-- The Go zero value of `entity.Job` (all fields at their zero value). -/
def zeroJob : Job :=
  { id := 0, type := "", priority := 0, payload := none, attempts := 0,
    maxAttempts := 0, createdAt := 0, updatedAt := none, deletedAt := none,
    scheduledAt := none, startedAt := none, completedAt := none,
    status := "", error := "" }

/-! ### workerPool.calculateRetryDelay (pkg/worker/pool.go)

`time.Duration(math.Pow(2, float64(attempts-1))) * baseDelay` in Go:
`math.Pow(2, k)` is exact for integer `k`; converting the float to a
`time.Duration` (an `int64`) truncates toward zero, so any exponent
below zero yields `0`, and a value outside the `int64` range saturates
to `Int64.min` on amd64.  The subsequent multiplication by `baseDelay`
wraps modulo `2^64` as Go integer multiplication does. -/

/-- Wrap an integer into the signed 64-bit range, as Go `int64`
arithmetic does. -/
def i64wrap (x : Int) : Int :=
  (x + 2 ^ 63) % 2 ^ 64 - 2 ^ 63

/-- `time.Duration(math.Pow(2, float64(attempts-1)))`. -/
def pow2Trunc (attempts : Int) : Int :=
  if 1 ≤ attempts then
    if attempts - 1 ≤ 62 then 2 ^ (attempts - 1).toNat else -(2 ^ 63)
  else 0

/-- Nanoseconds in `30 * time.Second`. -/
def baseDelayNs : Int := 30 * 1000000000

/-- Nanoseconds in `10 * time.Minute`. -/
def maxDelayNs : Int := 600 * 1000000000

/-- `workerPool.calculateRetryDelay`, in nanoseconds. -/
def calculateRetryDelay (attempts : Int) : Int :=
  let backoff := i64wrap (pow2Trunc attempts * baseDelayNs)
  if backoff > maxDelayNs then maxDelayNs else backoff

/-! ### jobRepository updates (database/repository, job repository)

Each `UpdateJobTo...` method issues one SQL `UPDATE ... WHERE id = ?
AND deleted_at IS NULL`.  The row-level functions below give the effect
of that statement on a single matching row (the `deleted_at IS NULL`
guard included); the list-level functions apply them to every row with
the requested id, which is how the `WHERE id = ?` filter acts on a
table. -/

/-- Row effect of `jobRepository.UpdateJobToCompleted` (sets status and
`completed_at`; the `error` column is not touched). -/
def toCompletedRow (now t : Nat) (j : Job) : Job :=
  if j.deletedAt = none then
    { j with status := Completed, completedAt := some t, updatedAt := some now }
  else j

/-- Row effect of `jobRepository.UpdateJobToProcessing`. -/
def toProcessingRow (now t : Nat) (j : Job) : Job :=
  if j.deletedAt = none then
    { j with status := Processing, startedAt := some t, updatedAt := some now }
  else j

/-- Row effect of `jobRepository.UpdateJobToFailed`: sets the status,
increments the stored `attempts` column, and writes `error` only when
the message is non-empty. -/
def toFailedRow (now : Nat) (errorMsg : String) (j : Job) : Job :=
  if j.deletedAt = none then
    let j1 := { j with status := Failed, attempts := j.attempts + 1,
                       updatedAt := some now }
    if errorMsg = "" then j1 else { j1 with error := errorMsg }
  else j

/-- Row effect of `jobRepository.UpdateJobToRetrying`: like
`toFailedRow` with status `retrying`. -/
def toRetryingRow (now : Nat) (errorMsg : String) (j : Job) : Job :=
  if j.deletedAt = none then
    let j1 := { j with status := Retrying, attempts := j.attempts + 1,
                       updatedAt := some now }
    if errorMsg = "" then j1 else { j1 with error := errorMsg }
  else j

/-- Row effect of `jobRepository.UpdateStatus` (writes `error` only when
non-empty; `attempts` untouched). -/
def updateStatusRow (now : Nat) (status : Status) (errorMsg : String) (j : Job) : Job :=
  if j.deletedAt = none then
    let j1 := { j with status := status, updatedAt := some now }
    if errorMsg = "" then j1 else { j1 with error := errorMsg }
  else j

/-- `jobRepository.UpdateJobToCompleted` on a table of rows. -/
def updateJobToCompleted (now t : Nat) (id : Nat) (st : List Job) : List Job :=
  st.map fun j => if j.id = id then toCompletedRow now t j else j

/-- `jobRepository.UpdateJobToFailed` on a table of rows. -/
def updateJobToFailed (now : Nat) (id : Nat) (errorMsg : String) (st : List Job) : List Job :=
  st.map fun j => if j.id = id then toFailedRow now errorMsg j else j

/-- `jobRepository.UpdateJobToRetrying` on a table of rows. -/
def updateJobToRetrying (now : Nat) (id : Nat) (errorMsg : String) (st : List Job) : List Job :=
  st.map fun j => if j.id = id then toRetryingRow now errorMsg j else j

/-! ### workerPool.handleJobFailure (pkg/worker/pool.go, lines 214-250)

The worker increments the attempts of its in-memory copy, compares the
incremented copy against the `max_attempts` of that copy, and then calls
`UpdateJobToFailed` or `UpdateJobToRetrying`, each of which separately
increments the stored column.  Queue bookkeeping (`MarkFailed`) and
logging do not touch the job row and are omitted. -/

/-- `workerPool.handleJobFailure`, acting on the in-memory copy
`mem` and on the stored row `row` of the same job; returns the updated
in-memory copy and the updated row. -/
def handleJobFailureRow (now : Nat) (errorMsg : String) (mem row : Job) :
    Job × Job :=
  let m := { mem with attempts := mem.attempts + 1 }
  if m.maxAttempts ≤ m.attempts then (m, toFailedRow now errorMsg row)
  else (m, toRetryingRow now errorMsg row)

/-! ### The per-job retry transition system (claim C2)

One job seen through the worker-pool failure path
(`workerPool.processJob` / `handleJobFailure` / `handleJobSuccess`) and
re-admission by the retry scheduler
(`WorkerService.processRetryableJobs`): the state holds the stored row,
the serialized copies waiting in the queue, and the copies held by
workers.  Every SQL update filters on the id of this job, so rows of other
jobs cannot interact with it and the system is projected onto the one
row. -/

structure JobSys where
  row : Job
  queued : List Job
  inFlight : List Job
deriving DecidableEq

/-- State immediately after `jobManager.CreateJob`: the fresh row is
persisted and one serialized copy of it is enqueued. -/
def initJobSys (j : Job) : JobSys :=
  { row := j, queued := [j], inFlight := [] }

/-- One transition of the per-job system. -/
inductive JobSysStep : JobSys → JobSys → Prop where
  | dequeue (s : JobSys) (c : Job) (rest : List Job) (now t : Nat) :
      s.queued = c :: rest →
      JobSysStep s { row := toProcessingRow now t s.row, queued := rest,
                     inFlight := s.inFlight ++ [c] }
  | finalizeSuccess (s : JobSys) (c : Job) (rest : List Job) (now t : Nat) :
      s.inFlight = c :: rest →
      JobSysStep s { row := toCompletedRow now t s.row, queued := s.queued,
                     inFlight := rest }
  | finalizeFailure (s : JobSys) (c : Job) (rest : List Job) (now : Nat)
      (errorMsg : String) :
      s.inFlight = c :: rest →
      JobSysStep s { row := (handleJobFailureRow now errorMsg c s.row).2,
                     queued := s.queued, inFlight := rest }
  | retryAdmit (s : JobSys) (now before u : Nat) :
      s.row.status = Failed →
      s.row.attempts < s.row.maxAttempts →
      s.row.deletedAt = none →
      s.row.updatedAt = some u →
      u < before →
      JobSysStep s { row := updateStatusRow now Pending "" s.row,
                     queued := s.queued ++ [s.row], inFlight := s.inFlight }

/-- Reachability from a state by `JobSysStep`. -/
inductive JobSysReach (init : JobSys) : JobSys → Prop where
  | refl : JobSysReach init init
  | step {s s' : JobSys} : JobSysReach init s → JobSysStep s s' →
      JobSysReach init s'

/-! ### Session repository (DefaultSessionRepository) -/

structure SessionRow where
  userId : Nat
  token : String
  revoked : Bool
  deletedAt : Option Nat
deriving DecidableEq

/-- `DefaultSessionRepository.RevokeByToken`: sets `revoked = true` and
`deleted_at = now` on every non-deleted row with the token. -/
def revokeByTokenStore (now : Nat) (token : String) (st : List SessionRow) :
    List SessionRow :=
  st.map fun r =>
    if r.token = token ∧ r.deletedAt = none then
      { r with revoked := true, deletedAt := some now }
    else r

/-- `DefaultSessionRepository.RevokeByUserID`: the same for every
non-deleted row of the user. -/
def revokeByUserIdStore (now : Nat) (u : Nat) (st : List SessionRow) :
    List SessionRow :=
  st.map fun r =>
    if r.userId = u ∧ r.deletedAt = none then
      { r with revoked := true, deletedAt := some now }
    else r

/-- `DefaultSessionRepository.Insert`: revoke any duplicate token, then
soft-revoke all prior rows of the user, then insert the new row (which
starts non-revoked and non-deleted, the zero values of the
`entity.Session` literal built by `createSession`). -/
def insertSession (now : Nat) (u : Nat) (token : String) (st : List SessionRow) :
    List SessionRow :=
  revokeByUserIdStore now u (revokeByTokenStore now token st) ++
    [{ userId := u, token := token, revoked := false, deletedAt := none }]

/-- The authentication flows of `DefaultAuthManager` as they touch the
session store: `Login` inserts via `createSession`; `RefreshToken`
inserts the new session and then revokes the old token; `Logout`
revokes by token. -/
inductive SessionOp where
  | login (now u : Nat) (token : String)
  | refresh (now u : Nat) (newToken oldToken : String)
  | logout (now : Nat) (token : String)

/-- Effect of one auth-manager flow on the session store. -/
def applySessionOp (st : List SessionRow) : SessionOp → List SessionRow
  | .login now u token => insertSession now u token st
  | .refresh now u newToken oldToken =>
      revokeByTokenStore now oldToken (insertSession now u newToken st)
  | .logout now token => revokeByTokenStore now token st

/-- Effect of a sequence of auth-manager flows. -/
def applySessionOps (ops : List SessionOp) (st : List SessionRow) :
    List SessionRow :=
  ops.foldl applySessionOp st

/-- A session row of user `u` that is neither revoked nor
soft-deleted. -/
def isActiveRow (u : Nat) (r : SessionRow) : Bool :=
  r.userId == u && r.revoked == false && r.deletedAt == none

/-- The non-revoked, non-deleted session rows of a user. -/
def activeSessions (u : Nat) (st : List SessionRow) : List SessionRow :=
  st.filter (isActiveRow u)

/-! ### SQS listener and job-manager bridge (pkg/sqs/listener.go) -/

/-- `JobManagerBridge.convertEventTypeToJobType`: `Claim.String()` is
`"claim"`, `KYCVerification.String()` is `"kyc.verification"`; unknown
event types are copied as-is. -/
def convertEventTypeToJobType (eventType : String) : String :=
  if eventType = "claim" then "init_claim"
  else if eventType = "kyc.verification" then "kyc_verification"
  else eventType

/-- `Listener.createJobFromMessage` plus `addSQSMetadata`: builds an
`entity.Job` literal setting only `Type` and `Payload` (every other
field keeps its Go zero value, in particular `Attempts = 0`,
`MaxAttempts = 0` and `Priority = 0`), then stores the SQS metadata
object under the `_sqs_metadata` payload key. -/
def createJobFromMessage (msgType : String) (payloadMap : Payload)
    (messageId queueURL : String) : Job :=
  { zeroJob with
      type := msgType,
      payload := some (mapSet payloadMap "_sqs_metadata"
        (.obj [("sqs_message_id", messageId), ("sqs_queue_url", queueURL)])) }

/-- `manager.CreateJobRequest`. -/
structure CreateJobRequest where
  type : String
  priority : Priority
  payload : Option Payload
  maxAttempts : Int
  scheduledAt : Option Nat
deriving DecidableEq

/-- The `CreateJobRequest` that `JobManagerBridge.HandleMessage` builds
(by reflection in the source) from the event job handed to it by the
listener: the job type is mapped through the static table, the
priority and max-attempts are copied from the fields of the event job,
and the payload is a copy of its payload with an `_sqs_source`
object added. -/
def buildCreateJobRequest (sqsEvent : Job) : CreateJobRequest :=
  { type := convertEventTypeToJobType sqsEvent.type,
    priority := sqsEvent.priority,
    payload := some (mapSet (sqsEvent.payload.getD [])
      "_sqs_source"
      (.obj [("original_event_type", sqsEvent.type),
             ("sqs_event_id", sqsEvent.id.repr)])),
    maxAttempts := sqsEvent.maxAttempts,
    scheduledAt := none }

/-- `Listener.shouldRetry`: a job is retried only when it still has
attempts left; otherwise the error text decides through a closed set
of non-retryable strings. -/
def shouldRetry (j : Job) (errMsg : String) : Bool :=
  if j.maxAttempts ≤ j.attempts then false
  else if errMsg == "invalid_payload" || errMsg == "malformed_data" ||
      errMsg == "authentication_failed" then false
  else true

/-- Outcome of `Listener.handleJobAndCleanup`: whether the broker
message was acknowledged (deleted) and the returned error, if any. -/
structure CleanupResult where
  acked : Bool
  errOut : Option String
deriving DecidableEq

/-- `Listener.handleJobAndCleanup`, with the outcome of the handler given as
`none` (success) or `some errMsg`; message deletion itself succeeds. -/
def handleJobAndCleanup (handleResult : Option String) (eventJob : Job) :
    CleanupResult :=
  match handleResult with
  | some errMsg =>
      if shouldRetry eventJob errMsg then { acked := false, errOut := none }
      else { acked := true, errOut := some errMsg }
  | none => { acked := true, errOut := none }

/-! ### jobManager.CreateJob (manager/job_manager.go) -/

/-- Persistent state seen by the job manager: the job table, the queue
contents, and a counter supplying fresh ids (`uuid.New()`). -/
structure ManagerState where
  jobs : List Job
  queue : List Job
  nextId : Nat
deriving DecidableEq

/-- `jobManager.CreateJob`: an empty type is rejected before anything
is persisted or enqueued; otherwise `max_attempts` is defaulted to 3
when non-positive, a nil payload is replaced by an empty mapping, and
the fresh `PENDING` job is persisted and enqueued.  Transport failures
of `Create`/`Enqueue` are not modelled: the claim conditions on the
successful return. -/
def createJob (now : Nat) (req : CreateJobRequest) (st : ManagerState) :
    ManagerState × Except String Job :=
  if req.type = "" then (st, .error "job type is required")
  else
    let maxA := if req.maxAttempts ≤ 0 then 3 else req.maxAttempts
    let pl : Option Payload := match req.payload with
      | none => some []
      | some p => some p
    let j : Job :=
      { zeroJob with
          id := st.nextId, type := req.type, priority := req.priority,
          payload := pl, maxAttempts := maxA, createdAt := now,
          scheduledAt := req.scheduledAt, status := Pending }
    ({ jobs := st.jobs ++ [j], queue := st.queue ++ [j],
       nextId := st.nextId + 1 }, .ok j)

/-! ### jobRepository.GetPendingJobs (C8)

`SELECT ... WHERE status = pending AND deleted_at IS NULL AND
(scheduled_at IS NULL OR scheduled_at <= now) ORDER BY priority DESC,
created_at ASC LIMIT limit`.  The `ORDER BY` pair is modelled as the
relation `pendingRel` and the sort as insertion sort, which realizes
one of the orders the SQL statement may return. -/

/-- Visibility filter of `GetPendingJobs`. -/
def pendingVisible (now : Nat) (j : Job) : Bool :=
  j.status == Pending && j.deletedAt == none &&
    (match j.scheduledAt with
     | none => true
     | some t => decide (t ≤ now))

/-- `ORDER BY priority DESC, created_at ASC` as a relation: `a` may
come before `b`. -/
def pendingRel (a b : Job) : Prop :=
  b.priority < a.priority ∨ (a.priority = b.priority ∧ a.createdAt ≤ b.createdAt)

instance : DecidableRel pendingRel := fun _ _ =>
  inferInstanceAs (Decidable (_ ∨ _))

instance : IsTotal Job pendingRel where
  total a b := by
    unfold pendingRel
    rcases lt_trichotomy a.priority b.priority with h | h | h
    · exact Or.inr (Or.inl h)
    · rcases Nat.le_total a.createdAt b.createdAt with hc | hc
      · exact Or.inl (Or.inr ⟨h, hc⟩)
      · exact Or.inr (Or.inr ⟨h.symm, hc⟩)
    · exact Or.inl (Or.inl h)

instance : IsTrans Job pendingRel where
  trans a b c hab hbc := by
    unfold pendingRel at *
    rcases hab with h | ⟨h1, h2⟩ <;> rcases hbc with g | ⟨g1, g2⟩
    · exact Or.inl (lt_trans g h)
    · exact Or.inl (lt_of_eq_of_lt g1.symm h)
    · exact Or.inl (lt_of_lt_of_eq g h1.symm)
    · exact Or.inr ⟨h1.trans g1, Nat.le_trans h2 g2⟩

/-- `jobRepository.GetPendingJobs`. -/
def getPendingJobs (now : Nat) (limit : Nat) (st : List Job) : List Job :=
  (List.insertionSort pendingRel (st.filter (pendingVisible now))).take limit

/-! ### workerPool.GetStats (C9)

The Go method copies the stats struct and deep-copies the
`QueueDepths` map into a freshly allocated map.  To state that the
copy is fresh, map objects live in an explicit heap and the stats
struct holds a reference into it. -/

abbrev DepthMap := List (String × Int)

abbrev Heap := List DepthMap

/-- Dereference a map in the heap. -/
def heapRead (h : Heap) (r : Nat) : DepthMap := (h.get? r).getD []

/-- Overwrite the map object behind reference `r`. -/
def heapWrite (h : Heap) (r : Nat) (m : DepthMap) : Heap := h.set r m

/-- `worker.PoolStats` with the map field as a heap reference. -/
structure PoolStatsObj where
  totalWorkers : Int
  activeWorkers : Int
  processingJobs : Int
  totalProcessed : Int
  totalFailed : Int
  queueDepthsRef : Nat
deriving DecidableEq

/-- `workerPool.GetStats`: copies the scalar fields, allocates a fresh
map initialized from the `QueueDepths` of the pool, and returns (new
heap, the stats object of the pool as the method leaves it, the returned
snapshot). -/
def getStats (h : Heap) (p : PoolStatsObj) : Heap × PoolStatsObj × PoolStatsObj :=
  (h ++ [heapRead h p.queueDepthsRef], p,
   { p with queueDepthsRef := h.length })

/-! ### redisQueue.Dequeue (C10)

`BRPop` removes the next entry from the queue before anything is
decoded; decoding is abstracted by the `decode` argument (JSON
unmarshalling of the raw entry).  A `redis.Nil` timeout on an empty
queue returns no job and no error.  The result is the remaining queue
paired with the Go return value. -/

def dequeue (decode : String → Option Job) (queue : List String) :
    List String × Except String (Option Job) :=
  match queue with
  | [] => ([], .ok none)
  | e :: rest =>
      match decode e with
      | some j => (rest, .ok (some j))
      | none => (rest, .error "failed to unmarshal job")

/-- At most one active (non-revoked, non-deleted) session row per user. -/
def sessionInvariant (st : List SessionRow) : Prop :=
  ∀ u : Nat, (activeSessions u (st)).length ≤ 1

/-- Inductive invariant of the per-job retry system: the stored
attempts never exceed `max_attempts`; every serialized copy (queued or
held by a worker) agrees with the stored row and exists only while the
row still has attempts left; a permanently failed row has no copies in
circulation; at most one copy circulates. -/
def jobSysInv (s : JobSys) : Prop :=
  s.row.attempts ≤ s.row.maxAttempts
  ∧ (∀ c ∈ s.queued ++ s.inFlight,
      c.attempts = s.row.attempts ∧ c.maxAttempts = s.row.maxAttempts
      ∧ s.row.attempts < s.row.maxAttempts)
  ∧ (s.row.status = Failed → s.queued ++ s.inFlight = [])
  ∧ (s.queued ++ s.inFlight).length ≤ 1

/-! ## Theorems -/

/-! ### Heap helper lemmas -/

theorem heapRead_append_lt (h : Heap) (m : DepthMap) (r : Nat)
    (hr : r < h.length) : heapRead (h ++ [m]) r = heapRead h r := by
  induction h generalizing r with
  | nil => simp at hr
  | cons x xs ih =>
    cases r with
    | zero => rfl
    | succ r =>
      simp only [List.length_cons] at hr
      exact ih r (by omega)

theorem heapRead_append_len (h : Heap) (m : DepthMap) :
    heapRead (h ++ [m]) h.length = m := by
  induction h with
  | nil => rfl
  | cons x xs ih => exact ih

theorem heapRead_write_ne (h : Heap) (r w : Nat) (m : DepthMap)
    (hne : w ≠ r) : heapRead (heapWrite h w m) r = heapRead h r := by
  induction h generalizing r w with
  | nil => rfl
  | cons x xs ih =>
    cases w with
    | zero =>
      cases r with
      | zero => exact absurd rfl hne
      | succ r => rfl
    | succ w =>
      cases r with
      | zero => rfl
      | succ r => exact ih r w (by omega)

/-! ### Claim C5: backoff law -/

/-- Claim C5 counterexample: `calculateRetryDelay 0` is `0`, not the
base delay of 30 seconds that the claim requires for `attempts ≤ 0`. -/
theorem calculateRetryDelay_zero_counterexample :
    calculateRetryDelay 0 = 0 ∧ calculateRetryDelay 0 ≠ baseDelayNs := by
  constructor
  · rfl
  · intro h
    simp [calculateRetryDelay, pow2Trunc, i64wrap, baseDelayNs, maxDelayNs] at h

/-- Claim C5 (amended): for `1 ≤ attempts ≤ 29` the delay is
`min(30s * 2^(attempts-1), 10min)`; for `attempts ≤ 0` the float
truncation in `time.Duration(math.Pow(2, attempts-1))` yields `0`, not
the base delay (and from `attempts = 30` on, the `int64` product
overflows and leaves the closed formula as well). -/
theorem calculateRetryDelay_backoff_law :
    (∀ a : Int, 1 ≤ a → a ≤ 29 →
      calculateRetryDelay a = min (2 ^ (a - 1).toNat * baseDelayNs) maxDelayNs)
    ∧ (∀ a : Int, a ≤ 0 → calculateRetryDelay a = 0) := by
  have e63 : (2:Int) ^ 63 = 9223372036854775808 := by norm_num
  have e64 : (2:Int) ^ 64 = 18446744073709551616 := by norm_num
  constructor
  · intro a h1 h2
    have hk : (a - 1).toNat ≤ 28 := by omega
    have hpow : (2:Int) ^ (a - 1).toNat ≤ 2 ^ 28 :=
      pow_le_pow_right₀ (by norm_num) hk
    have hpos : (0:Int) < 2 ^ (a - 1).toNat := pow_pos (by norm_num) _
    have hub : (2:Int) ^ 28 = 268435456 := by norm_num
    rw [hub] at hpow
    simp only [calculateRetryDelay, pow2Trunc, i64wrap, baseDelayNs, maxDelayNs,
      if_pos h1, if_pos (show a - 1 ≤ 62 by omega)]
    set p : Int := 2 ^ (a - 1).toNat * (30 * 1000000000) with hp
    have hple : p ≤ 8053063680000000000 := by
      rw [hp]; nlinarith
    have hppos : 0 < p := by positivity
    have hmod : (p + 2 ^ 63) % 2 ^ 64 = p + 2 ^ 63 := by
      rw [e63, e64]
      exact Int.emod_eq_of_lt (by omega) (by omega)
    rw [hmod]
    rw [Int.min_def]
    split_ifs <;> omega
  · intro a ha
    simp only [calculateRetryDelay, pow2Trunc, i64wrap, baseDelayNs, maxDelayNs,
      if_neg (show ¬ (1:Int) ≤ a by omega)]
    norm_num

/-- Witness for the amended backoff law at `attempts = 3` and
`attempts = 0`. -/
theorem calculateRetryDelay_backoff_law_witness :
    calculateRetryDelay 3 = min (2 ^ ((3:Int) - 1).toNat * baseDelayNs) maxDelayNs
    ∧ calculateRetryDelay 0 = 0 :=
  ⟨calculateRetryDelay_backoff_law.1 3 (by norm_num) (by norm_num),
   calculateRetryDelay_backoff_law.2 0 le_rfl⟩

/-! ### Claim C10: malformed queue entry is consumed -/

/-- Claim C10: if the popped entry does not decode to a job, `Dequeue`
returns an error and no job and the entry is already gone from the
queue; an empty queue (clean timeout) returns no job and no error with
the queue unchanged. -/
theorem dequeue_malformed_entry_consumed :
    (∀ (decode : String → Option Job) (e : String) (rest : List String),
      decode e = none →
      dequeue decode (e :: rest) = (rest, .error "failed to unmarshal job"))
    ∧ (∀ decode : String → Option Job, dequeue decode [] = ([], .ok none)) := by
  constructor
  · intro decode e rest h
    simp [dequeue, h]
  · intro decode
    rfl

/-- Witness: a queue whose only entry decodes to nothing is left empty
while `Dequeue` reports the unmarshalling error. -/
theorem dequeue_malformed_entry_consumed_witness :
    dequeue (fun _ => none) ["garbage"] = ([], .error "failed to unmarshal job") :=
  dequeue_malformed_entry_consumed.1 (fun _ => none) "garbage" [] rfl

/-! ### Claim C9: GetStats is a pure observation -/

/-- Claim C9: `GetStats` leaves the stats object of the pool unchanged and
returns a snapshot with equal scalar counters whose `QueueDepths` is a
freshly allocated copy, so writing through the map of the snapshot
cannot change the map of the pool. -/
theorem getStats_pure_snapshot :
    ∀ (h : Heap) (p : PoolStatsObj), p.queueDepthsRef < h.length →
      (getStats h p).2.1 = p
      ∧ (getStats h p).2.2.queueDepthsRef ≠ p.queueDepthsRef
      ∧ (getStats h p).2.2.totalWorkers = p.totalWorkers
      ∧ (getStats h p).2.2.activeWorkers = p.activeWorkers
      ∧ (getStats h p).2.2.processingJobs = p.processingJobs
      ∧ (getStats h p).2.2.totalProcessed = p.totalProcessed
      ∧ (getStats h p).2.2.totalFailed = p.totalFailed
      ∧ heapRead (getStats h p).1 p.queueDepthsRef = heapRead h p.queueDepthsRef
      ∧ heapRead (getStats h p).1 (getStats h p).2.2.queueDepthsRef
          = heapRead h p.queueDepthsRef
      ∧ (∀ m : DepthMap,
          heapRead (heapWrite (getStats h p).1 (getStats h p).2.2.queueDepthsRef m)
              p.queueDepthsRef
            = heapRead h p.queueDepthsRef) := by
  intro h p hlt
  refine ⟨rfl, by simpa [getStats] using Nat.ne_of_gt hlt, rfl, rfl, rfl, rfl, rfl,
    ?_, ?_, ?_⟩
  · exact heapRead_append_lt h _ _ hlt
  · simpa [getStats] using heapRead_append_len h (heapRead h p.queueDepthsRef)
  · intro m
    have hw : heapRead (heapWrite (h ++ [heapRead h p.queueDepthsRef]) h.length m)
        p.queueDepthsRef = heapRead (h ++ [heapRead h p.queueDepthsRef])
        p.queueDepthsRef :=
      heapRead_write_ne _ _ _ m (Nat.ne_of_gt hlt)
    simpa [getStats, hw] using heapRead_append_lt h _ _ hlt

/-- Witness for `getStats_pure_snapshot` on a one-map heap. -/
theorem getStats_pure_snapshot_witness :
    (getStats [[("q1", 4)]]
      { totalWorkers := 2, activeWorkers := 1, processingJobs := 1,
        totalProcessed := 5, totalFailed := 0, queueDepthsRef := 0 }).2.1
      = { totalWorkers := 2, activeWorkers := 1, processingJobs := 1,
          totalProcessed := 5, totalFailed := 0, queueDepthsRef := 0 }
    ∧ (getStats [[("q1", 4)]]
        { totalWorkers := 2, activeWorkers := 1, processingJobs := 1,
          totalProcessed := 5, totalFailed := 0, queueDepthsRef := 0 }).2.2.queueDepthsRef
        ≠ 0 :=
  ⟨(getStats_pure_snapshot [[("q1", 4)]] _ (by norm_num)).1,
   (getStats_pure_snapshot [[("q1", 4)]] _ (by norm_num)).2.1⟩

/-! ### Claim C7: createJob postconditions -/

/-- Claim C7: an empty `type` is rejected with nothing persisted or
enqueued; otherwise the returned job is `PENDING` with zero attempts, a
fresh id, the defaulted `max_attempts`, and the request payload or an
empty mapping. -/
theorem createJob_postconditions :
    ∀ (now : Nat) (req : CreateJobRequest) (st : ManagerState),
      (req.type = "" → createJob now req st = (st, .error "job type is required"))
      ∧ (req.type ≠ "" →
        ∃ j, (createJob now req st).2 = .ok j
          ∧ j.status = Pending
          ∧ j.attempts = 0
          ∧ j.error = ""
          ∧ j.id = st.nextId
          ∧ j.maxAttempts =
              (if 0 < req.maxAttempts then req.maxAttempts else 3)
          ∧ j.payload = some (req.payload.getD [])
          ∧ (createJob now req st).1.jobs = st.jobs ++ [j]
          ∧ (createJob now req st).1.queue = st.queue ++ [j]
          ∧ ((∀ k ∈ st.jobs, k.id < st.nextId) → ∀ k ∈ st.jobs, k.id ≠ j.id)) := by
  intro now req st
  constructor
  · intro h
    simp [createJob, h]
  · intro h
    unfold createJob
    rw [if_neg h]
    refine ⟨_, rfl, rfl, rfl, rfl, rfl, ?_, ?_, rfl, rfl, ?_⟩
    · show (if req.maxAttempts ≤ 0 then 3 else req.maxAttempts)
        = (if 0 < req.maxAttempts then req.maxAttempts else 3)
      split_ifs <;> omega
    · show (match req.payload with
        | none => some ([] : Payload)
        | some p => some p) = some (req.payload.getD [])
      cases req.payload <;> rfl
    · intro hfresh k hk
      have := hfresh k hk
      show k.id ≠ st.nextId
      omega

/-- Witness for `createJob_postconditions` at a concrete request. -/
theorem createJob_postconditions_witness :
    ∃ j, (createJob 7
        { type := "init_claim", priority := PriorityHigh, payload := none,
          maxAttempts := 0, scheduledAt := none }
        { jobs := [], queue := [], nextId := 5 }).2 = .ok j
      ∧ j.status = Pending ∧ j.attempts = 0 ∧ j.id = 5 ∧ j.maxAttempts = 3 := by
  obtain ⟨j, h1, h2, h3, _, h5, h6, -⟩ :=
    (createJob_postconditions 7
      { type := "init_claim", priority := PriorityHigh, payload := none,
        maxAttempts := 0, scheduledAt := none }
      { jobs := [], queue := [], nextId := 5 }).2 (by decide)
  exact ⟨j, h1, h2, h3, h5, by simpa using h6⟩

/-! ### Claim C1: single active session -/

theorem filter_map_eq_nil (p : SessionRow → Bool) (f : SessionRow → SessionRow)
    (hf : ∀ r, p (f r) = false) (st : List SessionRow) :
    List.filter p (st.map f) = [] := by
  induction st with
  | nil => rfl
  | cons r rs ih =>
    simp only [List.map_cons, List.filter_cons, hf r, Bool.false_eq_true,
      if_false]
    exact ih

theorem length_filter_map_le (p : SessionRow → Bool) (f : SessionRow → SessionRow)
    (hf : ∀ r, f r = r ∨ p (f r) = false) (st : List SessionRow) :
    (List.filter p (st.map f)).length ≤ (List.filter p st).length := by
  induction st with
  | nil => exact Nat.le_refl _
  | cons r rs ih =>
    simp only [List.map_cons, List.filter_cons]
    rcases hf r with h | h
    · rw [h]
      cases hp : p r
      · simpa [hp] using ih
      · simpa [hp] using Nat.succ_le_succ ih
    · simp only [h, Bool.false_eq_true, if_false]
      cases hp : p r
      · simpa [hp] using ih
      · simp only [hp, if_pos]
        exact Nat.le_trans ih (Nat.le_succ _)

theorem isActiveRow_revoked_false (u now : Nat) (r : SessionRow) :
    isActiveRow u { r with revoked := true, deletedAt := some now } = false := by
  simp [isActiveRow]

theorem activeSessions_revokeByUserId_self (now u : Nat) (st : List SessionRow) :
    activeSessions u (revokeByUserIdStore now u st) = [] := by
  unfold activeSessions revokeByUserIdStore
  refine filter_map_eq_nil _ _ ?_ st
  intro r
  by_cases hc : r.userId = u ∧ r.deletedAt = none
  · rw [if_pos hc]
    exact isActiveRow_revoked_false u now r
  · rw [if_neg hc]
    rcases Decidable.not_and_iff_or_not.mp hc with hu | hd
    · simp [isActiveRow, hu]
    · cases hdel : r.deletedAt with
      | none => exact absurd hdel hd
      | some d => simp [isActiveRow, hdel]

theorem length_activeSessions_revokeByToken_le (now : Nat) (tok : String)
    (u : Nat) (st : List SessionRow) :
    (activeSessions u (revokeByTokenStore now tok st)).length
      ≤ (activeSessions u st).length := by
  unfold activeSessions revokeByTokenStore
  refine length_filter_map_le _ _ ?_ st
  intro r
  by_cases hc : r.token = tok ∧ r.deletedAt = none
  · rw [if_pos hc]
    exact Or.inr (isActiveRow_revoked_false u now r)
  · rw [if_neg hc]
    exact Or.inl rfl

theorem length_activeSessions_revokeByUserId_le (now v u : Nat)
    (st : List SessionRow) :
    (activeSessions u (revokeByUserIdStore now v st)).length
      ≤ (activeSessions u st).length := by
  unfold activeSessions revokeByUserIdStore
  refine length_filter_map_le _ _ ?_ st
  intro r
  by_cases hc : r.userId = v ∧ r.deletedAt = none
  · rw [if_pos hc]
    exact Or.inr (isActiveRow_revoked_false u now r)
  · rw [if_neg hc]
    exact Or.inl rfl

theorem activeSessions_insertSession_self (now u : Nat) (tok : String)
    (st : List SessionRow) :
    activeSessions u (insertSession now u tok st)
      = [{ userId := u, token := tok, revoked := false, deletedAt := none }] := by
  unfold insertSession
  have h1 : activeSessions u
      (revokeByUserIdStore now u (revokeByTokenStore now tok st)) = [] :=
    activeSessions_revokeByUserId_self now u _
  unfold activeSessions at h1 ⊢
  rw [List.filter_append, h1]
  simp [isActiveRow]

theorem length_activeSessions_insertSession_other (now u v : Nat) (tok : String)
    (st : List SessionRow) (hvu : v ≠ u) :
    (activeSessions v (insertSession now u tok st)).length
      ≤ (activeSessions v st).length := by
  unfold insertSession
  have hmid : (activeSessions v
      (revokeByUserIdStore now u (revokeByTokenStore now tok st))).length
      ≤ (activeSessions v st).length :=
    Nat.le_trans (length_activeSessions_revokeByUserId_le now u v _)
      (length_activeSessions_revokeByToken_le now tok v st)
  unfold activeSessions at hmid ⊢
  rw [List.filter_append]
  have hnew : List.filter (isActiveRow v)
      [({ userId := u, token := tok, revoked := false, deletedAt := none } :
        SessionRow)] = [] := by
    simp [isActiveRow, Ne.symm hvu]
  rw [hnew, List.append_nil]
  exact hmid

theorem sessionInvariant_applySessionOp (st : List SessionRow) (op : SessionOp)
    (h : sessionInvariant st) : sessionInvariant (applySessionOp st op) := by
  intro v
  cases op with
  | login now u token =>
    by_cases hv : v = u
    · subst hv
      show (activeSessions v (insertSession now v token st)).length ≤ 1
      rw [activeSessions_insertSession_self]
      exact Nat.le_refl 1
    · exact Nat.le_trans
        (length_activeSessions_insertSession_other now u v token st hv) (h v)
  | refresh now u newToken oldToken =>
    refine Nat.le_trans (length_activeSessions_revokeByToken_le now oldToken v _) ?_
    by_cases hv : v = u
    · subst hv
      rw [activeSessions_insertSession_self]
      exact Nat.le_refl 1
    · exact Nat.le_trans
        (length_activeSessions_insertSession_other now u v newToken st hv) (h v)
  | logout now token =>
    exact Nat.le_trans (length_activeSessions_revokeByToken_le now token v st) (h v)

/-- Claim C1: starting from an empty session store, any sequence of the
login/refresh/logout flows of the auth manager leaves at most one active
(non-revoked, non-deleted) row per user, and any single successful
`Insert` (the store step of `createSession`) leaves exactly one active
row for the inserted user, whatever the prior store was. -/
theorem session_single_active :
    (∀ (ops : List SessionOp) (u : Nat),
      (activeSessions u (applySessionOps ops [])).length ≤ 1)
    ∧ (∀ (st : List SessionRow) (now u : Nat) (tok : String),
      (activeSessions u (insertSession now u tok st)).length = 1) := by
  constructor
  · have main : ∀ (ops : List SessionOp) (st : List SessionRow),
        sessionInvariant st → sessionInvariant (applySessionOps ops st) := by
      intro ops
      induction ops with
      | nil => intro st h; exact h
      | cons op rest ih =>
        intro st h
        exact ih _ (sessionInvariant_applySessionOp st op h)
    intro ops u
    refine main ops [] ?_ u
    intro v
    simp [activeSessions]
  · intro st now u tok
    rw [activeSessions_insertSession_self]
    rfl

/-! ### Claim C3: COMPLETED implies completed_at set and error empty -/

/-- Claim C3 counterexample: a pending job that fails once
(`UpdateJobToRetrying` writes `error = "boom"`) and is then completed
via `UpdateJobToCompleted` ends COMPLETED with `completed_at` set but
with its error text still `"boom"`, because `UpdateJobToCompleted`
never clears the `error` column. -/
theorem completed_error_counterexample :
    ∃ j ∈ updateJobToCompleted 6 7 1
        (updateJobToRetrying 5 1 "boom"
          [{ zeroJob with id := 1, status := Pending, maxAttempts := 3 }]),
      j.status = Completed ∧ j.completedAt = some 7 ∧ j.error = "boom" := by
  decide

/-- Claim C3 (amended): after `UpdateJobToCompleted(id, t)`, every
previously stored non-deleted row with that id reappears with status
COMPLETED and `completed_at = t`, but with its `error` field unchanged
— so a job whose last failure wrote a non-empty error keeps that error
after completion. -/
theorem updateJobToCompleted_keeps_error :
    ∀ (now t id : Nat) (st : List Job) (k : Job),
      k ∈ st → k.id = id → k.deletedAt = none →
      ∃ j ∈ updateJobToCompleted now t id st,
        j.status = Completed ∧ j.completedAt = some t ∧ j.error = k.error := by
  intro now t id st k hk hid hdel
  refine ⟨if k.id = id then toCompletedRow now t k else k,
    List.mem_map_of_mem _ hk, ?_⟩
  rw [if_pos hid]
  unfold toCompletedRow
  rw [if_pos hdel]
  exact ⟨rfl, rfl, rfl⟩

/-- Witness: the amended C3 statement at a retrying job carrying error
`"boom"`. -/
theorem updateJobToCompleted_keeps_error_witness :
    ∃ j ∈ updateJobToCompleted 6 7 1
        [{ zeroJob with id := 1, status := Retrying, error := "boom" }],
      j.status = Completed ∧ j.completedAt = some 7 ∧
        j.error = ({ zeroJob with
                      id := 1,
                      status := Retrying,
                      error := "boom" } : Job).error :=
  updateJobToCompleted_keeps_error 6 7 1 _
    { zeroJob with id := 1, status := Retrying, error := "boom" }
    (List.mem_singleton.mpr rfl) rfl rfl

/-! ### Claim C8: GetPendingJobs filter and ordering -/

/-- Claim C8: `GetPendingJobs` returns only non-deleted PENDING jobs
whose `scheduled_at` is absent or has passed; a job scheduled `D > 0`
in the future is never returned; and the result is ordered by priority
descending, then `created_at` ascending. -/
theorem getPendingJobs_spec :
    ∀ (now limit : Nat) (st : List Job),
      (∀ j ∈ getPendingJobs now limit st,
        j.status = Pending ∧ j.deletedAt = none ∧
        ∀ t, j.scheduledAt = some t → t ≤ now)
      ∧ (∀ (j : Job) (D : Nat), 0 < D → j.scheduledAt = some (now + D) →
          j ∉ getPendingJobs now limit st)
      ∧ List.Pairwise pendingRel (getPendingJobs now limit st) := by
  intro now limit st
  have hmem : ∀ j ∈ getPendingJobs now limit st,
      j.status = Pending ∧ j.deletedAt = none ∧
      ∀ t, j.scheduledAt = some t → t ≤ now := by
    intro j hj
    have h1 : j ∈ List.insertionSort pendingRel (st.filter (pendingVisible now)) :=
      (List.take_sublist _ _).subset hj
    have h2 : j ∈ st.filter (pendingVisible now) :=
      (List.mem_insertionSort pendingRel).mp h1
    have h3 := (List.mem_filter.mp h2).2
    unfold pendingVisible at h3
    simp only [Bool.and_eq_true, beq_iff_eq] at h3
    refine ⟨h3.1.1, h3.1.2, ?_⟩
    intro t ht
    rw [ht] at h3
    exact of_decide_eq_true h3.2
  refine ⟨hmem, ?_, ?_⟩
  · intro j D hD hsched hj
    have h := (hmem j hj).2.2 _ hsched
    omega
  · exact List.Pairwise.sublist (List.take_sublist _ _)
      (List.sorted_insertionSort pendingRel _)

/-- Witness: `getPendingJobs_spec` applied to a store with one visible
pending job and one job scheduled in the future. -/
theorem getPendingJobs_spec_witness :
    ({ zeroJob with id := 1, status := Pending, createdAt := 1 } : Job).status
        = Pending
    ∧ ({ zeroJob with id := 1, status := Pending, createdAt := 1 } : Job).deletedAt
        = none
    ∧ ({ zeroJob with id := 2, status := Pending, scheduledAt := some 15 } : Job)
        ∉ getPendingJobs 10 5
          [{ zeroJob with id := 1, status := Pending, createdAt := 1 },
           { zeroJob with id := 2, status := Pending, scheduledAt := some 15 }] := by
  have h := getPendingJobs_spec 10 5
    [{ zeroJob with id := 1, status := Pending, createdAt := 1 },
     { zeroJob with id := 2, status := Pending, scheduledAt := some 15 }]
  have h1 := h.1 { zeroJob with id := 1, status := Pending, createdAt := 1 }
    (by decide)
  exact ⟨h1.1, h1.2.1,
    h.2.1 { zeroJob with id := 2, status := Pending, scheduledAt := some 15 }
      5 (by decide) rfl⟩

/-! ### Claim C4: broker-listener acknowledgment -/

/-- Claim C4 counterexample: the handler fails with `"boom"`, which is
not in the closed non-retryable set, yet the message IS acknowledged
(deleted), because `shouldRetry` is called with the bridge event job
whose `Attempts` and `MaxAttempts` are both the zero value `0`, so its
attempts-remaining guard always fails first. -/
theorem broker_ack_counterexample :
    (handleJobAndCleanup (some "boom")
      (createJobFromMessage "claim" [] "m1" "queue1")).acked = true
    ∧ "boom" ≠ "invalid_payload" ∧ "boom" ≠ "malformed_data"
    ∧ "boom" ≠ "authentication_failed" := by
  constructor
  · rfl
  · exact ⟨by decide, by decide, by decide⟩

/-- Claim C4 (amended): success acknowledges; a failure is not
acknowledged only when `shouldRetry` holds, which requires
`attempts < max_attempts` besides the error text being outside the
closed set; the bridge event job built by `createJobFromMessage` has
`attempts = max_attempts = 0`, so for messages flowing through the
listener every failure is acknowledged as well. -/
theorem broker_ack_amended :
    (∀ (msgType : String) (payloadMap : Payload) (mid qurl : String)
        (handleResult : Option String),
      (handleJobAndCleanup handleResult
        (createJobFromMessage msgType payloadMap mid qurl)).acked = true)
    ∧ (∀ (j : Job) (errMsg : String),
        shouldRetry j errMsg = true ↔
          (j.attempts < j.maxAttempts ∧ errMsg ≠ "invalid_payload" ∧
           errMsg ≠ "malformed_data" ∧ errMsg ≠ "authentication_failed"))
    ∧ (∀ (j : Job) (errMsg : String), shouldRetry j errMsg = false →
        (handleJobAndCleanup (some errMsg) j).acked = true)
    ∧ (∀ (j : Job) (errMsg : String), shouldRetry j errMsg = true →
        (handleJobAndCleanup (some errMsg) j).acked = false) := by
  refine ⟨?_, ?_, ?_, ?_⟩
  · intro msgType payloadMap mid qurl handleResult
    cases handleResult with
    | none => rfl
    | some errMsg =>
      have hz : shouldRetry (createJobFromMessage msgType payloadMap mid qurl)
          errMsg = false := by
        unfold shouldRetry createJobFromMessage zeroJob
        rw [if_pos]
        exact Int.le_refl 0
      simp [handleJobAndCleanup, hz]
  · intro j errMsg
    unfold shouldRetry
    split_ifs with h1 h2
    · simp only [Bool.false_eq_true, false_iff]
      rintro ⟨hlt, -⟩
      omega
    · simp only [Bool.false_eq_true, false_iff]
      simp only [Bool.or_eq_true, beq_iff_eq] at h2
      rintro ⟨-, hni, hnm, hna⟩
      rcases h2 with (h | h) | h
      · exact hni h
      · exact hnm h
      · exact hna h
    · simp only [true_iff]
      simp only [Bool.or_eq_true, beq_iff_eq, not_or] at h2
      exact ⟨by omega, h2.1.1, h2.1.2, h2.2⟩
  · intro j errMsg h
    simp [handleJobAndCleanup, h]
  · intro j errMsg h
    simp [handleJobAndCleanup, h]

/-- Witness: a failing handler outcome on a bridge event job leads to
acknowledgment. -/
theorem broker_ack_amended_witness :
    (handleJobAndCleanup (some "boom")
      (createJobFromMessage "claim" [] "m3" "q3")).acked = true :=
  broker_ack_amended.2.2.1 (createJobFromMessage "claim" [] "m3" "q3") "boom"
    (by decide)

/-! ### Claim C6: event-type mapping and default priority -/

/-- Claim C6 counterexample: a `"claim"` event with no priority set is
mapped to job type `"init_claim"`, but the request priority is the Go
zero value LOW (0), not the HIGH default the claim states. -/
theorem event_priority_counterexample :
    (buildCreateJobRequest (createJobFromMessage "claim" [] "m1" "q1")).type
      = "init_claim"
    ∧ (buildCreateJobRequest (createJobFromMessage "claim" [] "m1" "q1")).priority
      = PriorityLow
    ∧ PriorityLow ≠ PriorityHigh := by
  exact ⟨rfl, rfl, by decide⟩

/-- Claim C6 (amended): the event-type table maps `"claim"` to
`"init_claim"` and copies unknown event types as-is, but the priority
carried into `CreateJob` is always the zero value LOW, since neither
`createJobFromMessage` nor `HandleMessage` reads a priority attribute
or applies a per-event default. -/
theorem event_type_mapping_amended :
    ∀ (payloadMap : Payload) (mid qurl : String),
      (buildCreateJobRequest
        (createJobFromMessage "claim" payloadMap mid qurl)).type = "init_claim"
      ∧ (buildCreateJobRequest
          (createJobFromMessage "claim" payloadMap mid qurl)).priority
          = PriorityLow
      ∧ (∀ et : String, et ≠ "claim" → et ≠ "kyc.verification" →
          (buildCreateJobRequest
            (createJobFromMessage et payloadMap mid qurl)).type = et
          ∧ (buildCreateJobRequest
              (createJobFromMessage et payloadMap mid qurl)).priority
              = PriorityLow) := by
  intro payloadMap mid qurl
  refine ⟨rfl, rfl, ?_⟩
  intro et h1 h2
  constructor
  · show convertEventTypeToJobType et = et
    unfold convertEventTypeToJobType
    rw [if_neg h1, if_neg h2]
  · rfl

/-- Witness: the amended C6 statement at the unmapped event type
`"price.update"`. -/
theorem event_type_mapping_amended_witness :
    (buildCreateJobRequest
      (createJobFromMessage "price.update" [] "m2" "q2")).type = "price.update"
    ∧ (buildCreateJobRequest
        (createJobFromMessage "price.update" [] "m2" "q2")).priority
        = PriorityLow :=
  (event_type_mapping_amended [] "m2" "q2").2.2 "price.update"
    (by decide) (by decide)

/-! ### Claim C2: monotone, bounded attempts -/

theorem toProcessingRow_counters (now t : Nat) (j : Job) :
    (toProcessingRow now t j).attempts = j.attempts
    ∧ (toProcessingRow now t j).maxAttempts = j.maxAttempts := by
  unfold toProcessingRow
  split <;> exact ⟨rfl, rfl⟩

theorem toProcessingRow_status (now t : Nat) (j : Job) :
    (toProcessingRow now t j).status = Processing ∨ toProcessingRow now t j = j := by
  unfold toProcessingRow
  split
  · exact Or.inl rfl
  · exact Or.inr rfl

theorem toCompletedRow_counters (now t : Nat) (j : Job) :
    (toCompletedRow now t j).attempts = j.attempts
    ∧ (toCompletedRow now t j).maxAttempts = j.maxAttempts := by
  unfold toCompletedRow
  split <;> exact ⟨rfl, rfl⟩

theorem toCompletedRow_status (now t : Nat) (j : Job) :
    (toCompletedRow now t j).status = Completed ∨ toCompletedRow now t j = j := by
  unfold toCompletedRow
  split
  · exact Or.inl rfl
  · exact Or.inr rfl

theorem toFailedRow_fields (now : Nat) (e : String) (j : Job)
    (hdel : j.deletedAt = none) :
    (toFailedRow now e j).attempts = j.attempts + 1
    ∧ (toFailedRow now e j).maxAttempts = j.maxAttempts
    ∧ (toFailedRow now e j).status = Failed := by
  unfold toFailedRow
  rw [if_pos hdel]
  split_ifs <;> exact ⟨rfl, rfl, rfl⟩

theorem toFailedRow_deleted (now : Nat) (e : String) (j : Job)
    (hdel : ¬ j.deletedAt = none) : toFailedRow now e j = j := by
  unfold toFailedRow
  rw [if_neg hdel]

theorem toRetryingRow_fields (now : Nat) (e : String) (j : Job)
    (hdel : j.deletedAt = none) :
    (toRetryingRow now e j).attempts = j.attempts + 1
    ∧ (toRetryingRow now e j).maxAttempts = j.maxAttempts
    ∧ (toRetryingRow now e j).status = Retrying := by
  unfold toRetryingRow
  rw [if_pos hdel]
  split_ifs <;> exact ⟨rfl, rfl, rfl⟩

theorem toRetryingRow_deleted (now : Nat) (e : String) (j : Job)
    (hdel : ¬ j.deletedAt = none) : toRetryingRow now e j = j := by
  unfold toRetryingRow
  rw [if_neg hdel]

theorem updateStatusRow_empty (now : Nat) (st0 : Status) (j : Job)
    (hdel : j.deletedAt = none) :
    updateStatusRow now st0 "" j = { j with status := st0, updatedAt := some now } := by
  unfold updateStatusRow
  rw [if_pos hdel]
  rw [if_pos rfl]

theorem handleJobFailureRow_row_attempts_ge (now : Nat) (e : String)
    (mem j : Job) : j.attempts ≤ (handleJobFailureRow now e mem j).2.attempts := by
  unfold handleJobFailureRow
  dsimp only
  by_cases hdel : j.deletedAt = none
  · split_ifs
    · show j.attempts ≤ (toFailedRow now e j).attempts
      rw [(toFailedRow_fields now e j hdel).1]
      omega
    · show j.attempts ≤ (toRetryingRow now e j).attempts
      rw [(toRetryingRow_fields now e j hdel).1]
      omega
  · split_ifs
    · show j.attempts ≤ (toFailedRow now e j).attempts
      rw [toFailedRow_deleted now e j hdel]
    · show j.attempts ≤ (toRetryingRow now e j).attempts
      rw [toRetryingRow_deleted now e j hdel]

theorem jobSysInv_step {s s' : JobSys} (hinv : jobSysInv s)
    (h : JobSysStep s s') : jobSysInv s' := by
  obtain ⟨hA, hB, hC, hD⟩ := hinv
  cases h with
  | dequeue c rest now t hq =>
    obtain ⟨ha, hm⟩ := toProcessingRow_counters now t s.row
    refine ⟨?_, ?_, ?_, ?_⟩
    · show (toProcessingRow now t s.row).attempts
        ≤ (toProcessingRow now t s.row).maxAttempts
      rw [ha, hm]
      exact hA
    · intro x hx
      have hx' : x ∈ s.queued ++ s.inFlight := by
        rcases List.mem_append.mp hx with hx1 | hx2
        · exact List.mem_append.mpr (Or.inl (by rw [hq]; exact List.mem_cons_of_mem c hx1))
        · rcases List.mem_append.mp hx2 with hx3 | hx4
          · exact List.mem_append.mpr (Or.inr hx3)
          · have hxc : x = c := List.mem_singleton.mp hx4
            refine List.mem_append.mpr (Or.inl ?_)
            rw [hq, hxc]
            exact List.mem_cons_self c rest
      have hbx := hB x hx'
      show x.attempts = (toProcessingRow now t s.row).attempts
        ∧ x.maxAttempts = (toProcessingRow now t s.row).maxAttempts
        ∧ (toProcessingRow now t s.row).attempts
            < (toProcessingRow now t s.row).maxAttempts
      rw [ha, hm]
      exact hbx
    · intro hst
      rcases toProcessingRow_status now t s.row with hp | hp
      · exact absurd (hp.symm.trans hst) (by decide)
      · rw [hp] at hst
        have := hC hst
        rw [hq] at this
        simp at this
    · show (rest ++ (s.inFlight ++ [c])).length ≤ 1
      have hlen : (s.queued ++ s.inFlight).length ≤ 1 := hD
      rw [hq] at hlen
      simp only [List.length_append, List.length_cons, List.length_nil] at hlen ⊢
      omega
  | finalizeSuccess c rest now t hq =>
    obtain ⟨ha, hm⟩ := toCompletedRow_counters now t s.row
    refine ⟨?_, ?_, ?_, ?_⟩
    · show (toCompletedRow now t s.row).attempts
        ≤ (toCompletedRow now t s.row).maxAttempts
      rw [ha, hm]
      exact hA
    · intro x hx
      have hx' : x ∈ s.queued ++ s.inFlight := by
        rcases List.mem_append.mp hx with hx1 | hx2
        · exact List.mem_append.mpr (Or.inl hx1)
        · refine List.mem_append.mpr (Or.inr ?_)
          rw [hq]
          exact List.mem_cons_of_mem c hx2
      have hbx := hB x hx'
      show x.attempts = (toCompletedRow now t s.row).attempts
        ∧ x.maxAttempts = (toCompletedRow now t s.row).maxAttempts
        ∧ (toCompletedRow now t s.row).attempts
            < (toCompletedRow now t s.row).maxAttempts
      rw [ha, hm]
      exact hbx
    · intro hst
      rcases toCompletedRow_status now t s.row with hp | hp
      · exact absurd (hp.symm.trans hst) (by decide)
      · rw [hp] at hst
        have := hC hst
        rw [hq] at this
        simp at this
    · show (s.queued ++ rest).length ≤ 1
      have hlen : (s.queued ++ s.inFlight).length ≤ 1 := hD
      rw [hq] at hlen
      simp only [List.length_append, List.length_cons] at hlen ⊢
      omega
  | finalizeFailure c rest now e hq =>
    have hmemc : c ∈ s.queued ++ s.inFlight := by
      refine List.mem_append.mpr (Or.inr ?_)
      rw [hq]
      exact List.mem_cons_self c rest
    obtain ⟨hc_att, hc_max, hlt⟩ := hB c hmemc
    have hnil : s.queued = [] ∧ rest = [] := by
      have hlen := hD
      rw [hq] at hlen
      simp only [List.length_append, List.length_cons] at hlen
      constructor
      · exact List.length_eq_zero.mp (by omega)
      · exact List.length_eq_zero.mp (by omega)
    refine ⟨?_, ?_, ?_, ?_⟩
    · show (handleJobFailureRow now e c s.row).2.attempts
        ≤ (handleJobFailureRow now e c s.row).2.maxAttempts
      unfold handleJobFailureRow
      dsimp only
      by_cases hdel : s.row.deletedAt = none
      · split_ifs
        · show (toFailedRow now e s.row).attempts
            ≤ (toFailedRow now e s.row).maxAttempts
          obtain ⟨h1, h2, -⟩ := toFailedRow_fields now e s.row hdel
          rw [h1, h2]
          omega
        · show (toRetryingRow now e s.row).attempts
            ≤ (toRetryingRow now e s.row).maxAttempts
          obtain ⟨h1, h2, -⟩ := toRetryingRow_fields now e s.row hdel
          rw [h1, h2]
          omega
      · split_ifs
        · show (toFailedRow now e s.row).attempts
            ≤ (toFailedRow now e s.row).maxAttempts
          rw [toFailedRow_deleted now e s.row hdel]
          exact hA
        · show (toRetryingRow now e s.row).attempts
            ≤ (toRetryingRow now e s.row).maxAttempts
          rw [toRetryingRow_deleted now e s.row hdel]
          exact hA
    · intro x hx
      rw [hnil.1, hnil.2] at hx
      simp at hx
    · intro hst
      rw [hnil.1, hnil.2]
      rfl
    · rw [hnil.1, hnil.2]
      simp
  | retryAdmit now before u hst hlt hdel hupd hub =>
    have hnil : s.queued = [] ∧ s.inFlight = [] :=
      List.append_eq_nil.mp (hC hst)
    have hrow : updateStatusRow now Pending "" s.row
        = { s.row with status := Pending, updatedAt := some now } :=
      updateStatusRow_empty now Pending s.row hdel
    refine ⟨?_, ?_, ?_, ?_⟩
    · show (updateStatusRow now Pending "" s.row).attempts
        ≤ (updateStatusRow now Pending "" s.row).maxAttempts
      rw [hrow]
      exact hA
    · intro x hx
      rw [hnil.1, hnil.2] at hx
      simp only [List.nil_append, List.append_nil] at hx
      have hxr : x = s.row := List.mem_singleton.mp hx
      rw [hrow, hxr]
      exact ⟨rfl, rfl, hlt⟩
    · intro hst'
      rw [hrow] at hst'
      have hPF : Pending = Failed := hst'
      exact absurd hPF (by decide)
    · rw [hnil.1, hnil.2]
      simp

theorem jobSysStep_attempts_mono {s s' : JobSys} (h : JobSysStep s s') :
    s.row.attempts ≤ s'.row.attempts := by
  cases h with
  | dequeue c rest now t hq =>
    show s.row.attempts ≤ (toProcessingRow now t s.row).attempts
    rw [(toProcessingRow_counters now t s.row).1]
  | finalizeSuccess c rest now t hq =>
    show s.row.attempts ≤ (toCompletedRow now t s.row).attempts
    rw [(toCompletedRow_counters now t s.row).1]
  | finalizeFailure c rest now e hq =>
    exact handleJobFailureRow_row_attempts_ge now e c s.row
  | retryAdmit now before u hst hlt hdel hupd hub =>
    show s.row.attempts ≤ (updateStatusRow now Pending "" s.row).attempts
    rw [updateStatusRow_empty now Pending s.row hdel]

theorem jobSysInv_init (j : Job) (h0 : j.attempts = 0)
    (h1 : 0 < j.maxAttempts) (h2 : j.status = Pending) :
    jobSysInv (initJobSys j) := by
  refine ⟨?_, ?_, ?_, ?_⟩
  · show j.attempts ≤ j.maxAttempts
    omega
  · intro c hc
    have hcj : c = j := by
      simpa [initJobSys] using hc
    rw [hcj]
    exact ⟨rfl, rfl, show j.attempts < j.maxAttempts by omega⟩
  · intro hst
    have hst2 : j.status = Failed := hst
    rw [h2] at hst2
    exact absurd hst2 (by decide)
  · show ([j] ++ []).length ≤ 1
    simp

theorem jobSysInv_reach {init s : JobSys} (h0 : jobSysInv init)
    (h : JobSysReach init s) : jobSysInv s := by
  induction h with
  | refl => exact h0
  | step hr hs ih => exact jobSysInv_step ih hs

/-- Claim C2: for a job as created by `CreateJob` (zero attempts,
positive `max_attempts`, status PENDING, one queued copy), in every
state reachable through the worker-pool failure path and the retry
re-admission the stored attempts stay bounded by `max_attempts`, and
every single step leaves the stored attempts non-decreasing. -/
theorem job_attempts_monotone_bounded :
    ∀ j : Job, j.attempts = 0 → 0 < j.maxAttempts → j.status = Pending →
      ∀ s : JobSys, JobSysReach (initJobSys j) s →
        (s.row.attempts ≤ s.row.maxAttempts
         ∧ ∀ s' : JobSys, JobSysStep s s' → s.row.attempts ≤ s'.row.attempts) := by
  intro j h0 h1 h2 s hreach
  refine ⟨(jobSysInv_reach (jobSysInv_init j h0 h1 h2) hreach).1, ?_⟩
  intro s' hstep
  exact jobSysStep_attempts_mono hstep

/-- Witness: the C2 statement at a fresh job with `max_attempts = 3`,
in the initial reachable state. -/
theorem job_attempts_monotone_bounded_witness :
    (initJobSys { zeroJob with
                   id := 1,
                   maxAttempts := 3,
                   status := Pending }).row.attempts
      ≤ (initJobSys { zeroJob with
                       id := 1,
                       maxAttempts := 3,
                       status := Pending }).row.maxAttempts :=
  (job_attempts_monotone_bounded
    { zeroJob with id := 1, maxAttempts := 3, status := Pending }
    rfl (by decide) rfl _ JobSysReach.refl).1

end ServicePlatform
